import Mathlib

/-!
Verification of the loss-computation core of the mmpose repository
(`mmpose/models/losses/mse_loss.py`).

Tensors of shape `[B, K, H, W]` are embedded as total functions
`ℕ → ℕ → ℕ → ℕ → ℚ` together with the explicit bounds `B K H W : ℕ`;
all reductions range over `Finset.range`, so entries outside the bounds
are irrelevant.  Real-valued torch arithmetic is modelled exactly over `ℚ`.
Fallible forward passes (a raised `ValueError` / `AssertionError` /
`RuntimeError`) are modelled as `Except String ℚ`.
-/

set_option maxHeartbeats 1000000

/-- `nn.MSELoss()` (mean reduction) applied to two `[B, S]` tensors:
the mean of the elementwise squared differences over all `B * S` entries. -/
def mseMean2 (B S : ℕ) (x y : ℕ → ℕ → ℚ) : ℚ :=
  (∑ b ∈ Finset.range B, ∑ s ∈ Finset.range S, (x b s - y b s) ^ 2) / ((B : ℚ) * S)

/-- `nn.MSELoss()` (mean reduction) applied to two `[B, K, H, W]` tensors:
the mean of the elementwise squared differences over all `B * K * H * W`
entries. -/
def mseMean4 (B K H W : ℕ) (x y : ℕ → ℕ → ℕ → ℕ → ℚ) : ℚ :=
  (∑ b ∈ Finset.range B, ∑ k ∈ Finset.range K, ∑ h ∈ Finset.range H,
      ∑ w ∈ Finset.range W, (x b k h w - y b k h w) ^ 2) / ((B : ℚ) * K * H * W)

/-- `KeypointMSELoss.forward` (mse_loss.py lines 29-60).  When
`use_target_weight` is set, the source first asserts that `target_weights`
is not `None` (modelled as an error result, the spec's `ShapeError`),
unsqueezes the `[B, K]` weights to `[B, K, 1, 1]` and multiplies both
`output` and `target` by them before taking the mean-reduced MSE; the
result is multiplied by `loss_weight`. -/
def KeypointMSELoss.forward (B K H W : ℕ) (use_target_weight : Bool) (loss_weight : ℚ)
    (output target : ℕ → ℕ → ℕ → ℕ → ℚ) (target_weights : Option (ℕ → ℕ → ℚ)) :
    Except String ℚ :=
  if use_target_weight then
    match target_weights with
    | none => Except.error "target_weights is None"
    | some tw =>
        Except.ok (mseMean4 B K H W
          (fun b k h x => output b k h x * tw b k)
          (fun b k h x => target b k h x * tw b k) * loss_weight)
  else
    Except.ok (mseMean4 B K H W output target * loss_weight)

/-- C5: for every valid-shaped `[B, K, H, W]` pair, `KeypointMSELoss` with
weighting disabled returns the mean of the elementwise squared error over all
`B * K * H * W` elements times the loss weight; with weighting enabled it
returns the same mean computed after multiplying both output and target by the
per-keypoint weights (broadcast over the spatial dimensions), the denominator
still being `B * K * H * W`. -/
theorem C5_keypointMSE_mean_formula (B K H W : ℕ) (loss_weight : ℚ)
    (output target : ℕ → ℕ → ℕ → ℕ → ℚ) (tw : ℕ → ℕ → ℚ) :
    KeypointMSELoss.forward B K H W false loss_weight output target none
      = Except.ok ((∑ b ∈ Finset.range B, ∑ k ∈ Finset.range K, ∑ h ∈ Finset.range H,
          ∑ x ∈ Finset.range W, (output b k h x - target b k h x) ^ 2)
          / ((B : ℚ) * K * H * W) * loss_weight) ∧
    KeypointMSELoss.forward B K H W true loss_weight output target (some tw)
      = Except.ok ((∑ b ∈ Finset.range B, ∑ k ∈ Finset.range K, ∑ h ∈ Finset.range H,
          ∑ x ∈ Finset.range W, (output b k h x * tw b k - target b k h x * tw b k) ^ 2)
          / ((B : ℚ) * K * H * W) * loss_weight) :=
  ⟨rfl, rfl⟩

/-- C6: with weighting enabled and a `None` weights argument,
`KeypointMSELoss.forward` fails (the source's `assert target_weights is not
None`, the spec's `ShapeError`) instead of returning a value. -/
theorem C6_keypointMSE_none_weights_fails (B K H W : ℕ) (loss_weight : ℚ)
    (output target : ℕ → ℕ → ℕ → ℕ → ℚ) :
    KeypointMSELoss.forward B K H W true loss_weight output target none
      = Except.error "target_weights is None" :=
  rfl

/-- C8: with weighting enabled, if every entry of the `[B, K]` weight tensor is
zero then `KeypointMSELoss` returns exactly `0`, for every output/target pair. -/
theorem C8_keypointMSE_zero_weights (B K H W : ℕ) (loss_weight : ℚ)
    (output target : ℕ → ℕ → ℕ → ℕ → ℚ) (tw : ℕ → ℕ → ℚ)
    (hw : ∀ b k, b < B → k < K → tw b k = 0) :
    KeypointMSELoss.forward B K H W true loss_weight output target (some tw)
      = Except.ok 0 := by
  have hz : (∑ b ∈ Finset.range B, ∑ k ∈ Finset.range K, ∑ h ∈ Finset.range H,
      ∑ x ∈ Finset.range W, (output b k h x * tw b k - target b k h x * tw b k) ^ 2) = 0 := by
    apply Finset.sum_eq_zero
    intro b hb
    apply Finset.sum_eq_zero
    intro k hk
    apply Finset.sum_eq_zero
    intro h _
    apply Finset.sum_eq_zero
    intro x _
    rw [hw b k (Finset.mem_range.mp hb) (Finset.mem_range.mp hk)]
    ring
  simp only [KeypointMSELoss.forward, mseMean4, hz, if_true, zero_div, zero_mul]

/-- Witness for C8 at a concrete input. -/
theorem C8_keypointMSE_zero_weights_witness :
    KeypointMSELoss.forward 1 1 1 1 true 1 (fun _ _ _ _ => 1) (fun _ _ _ _ => 0)
      (some fun _ _ => 0) = Except.ok 0 :=
  C8_keypointMSE_zero_weights 1 1 1 1 1 (fun _ _ _ _ => 1) (fun _ _ _ _ => 0)
    (fun _ _ => 0) (fun _ _ _ _ => rfl)

/-- `CombinedTargetMSELoss.forward` (mse_loss.py lines 87-134).  The `[B, 3K,
H, W]` output/target are flattened to `[B, 3K, S]` with `S = H * W` and split
into per-keypoint channel triplets `(classification, x-offset, y-offset)`.
For each keypoint the classification maps (multiplied by the per-keypoint
weight when `use_target_weight` is set) contribute `0.5 * MSE`, and each offset
map, masked by the (weighted) ground-truth classification map, contributes
another `0.5 * MSE`; the accumulated sum is divided by the number of keypoints
`3K / 3` and multiplied by `loss_weight`. -/
def CombinedTargetMSELoss.forward (B C S : ℕ) (use_target_weight : Bool) (loss_weight : ℚ)
    (output target : ℕ → ℕ → ℕ → ℚ) (target_weights : ℕ → ℕ → ℚ) : ℚ :=
  (∑ idx ∈ Finset.range (C / 3),
    (0.5 * mseMean2 B S
        (fun b s => output b (3 * idx) s * (if use_target_weight then target_weights b idx else 1))
        (fun b s => target b (3 * idx) s * (if use_target_weight then target_weights b idx else 1))
      + 0.5 * mseMean2 B S
        (fun b s => target b (3 * idx) s * (if use_target_weight then target_weights b idx else 1)
          * output b (3 * idx + 1) s)
        (fun b s => target b (3 * idx) s * (if use_target_weight then target_weights b idx else 1)
          * target b (3 * idx + 1) s)
      + 0.5 * mseMean2 B S
        (fun b s => target b (3 * idx) s * (if use_target_weight then target_weights b idx else 1)
          * output b (3 * idx + 2) s)
        (fun b s => target b (3 * idx) s * (if use_target_weight then target_weights b idx else 1)
          * target b (3 * idx + 2) s)))
    / ((C / 3 : ℕ) : ℚ) * loss_weight

/-- C3: `CombinedTargetMSELoss.forward` accumulates, per keypoint, `0.5 *
MSE` of the (weighted) classification maps plus `0.5 * MSE` of each of the two
offset maps masked by the (weighted) ground-truth classification map, divides
by the number of keypoints and multiplies by the loss weight.  The right-hand
side states the claim's formula explicitly as normalized sums. -/
theorem C3_combined_target_mse_formula (B C S : ℕ) (useW : Bool) (lw : ℚ)
    (output target : ℕ → ℕ → ℕ → ℚ) (tw : ℕ → ℕ → ℚ) :
    CombinedTargetMSELoss.forward B C S useW lw output target tw
      = lw * ((∑ idx ∈ Finset.range (C / 3),
          (1 / 2 * ((∑ b ∈ Finset.range B, ∑ s ∈ Finset.range S,
              ((if useW then tw b idx else 1) * output b (3 * idx) s
                - (if useW then tw b idx else 1) * target b (3 * idx) s) ^ 2)
              / ((B : ℚ) * S))
            + 1 / 2 * ((∑ b ∈ Finset.range B, ∑ s ∈ Finset.range S,
              ((if useW then tw b idx else 1) * target b (3 * idx) s * output b (3 * idx + 1) s
                - (if useW then tw b idx else 1) * target b (3 * idx) s * target b (3 * idx + 1) s)
                ^ 2) / ((B : ℚ) * S))
            + 1 / 2 * ((∑ b ∈ Finset.range B, ∑ s ∈ Finset.range S,
              ((if useW then tw b idx else 1) * target b (3 * idx) s * output b (3 * idx + 2) s
                - (if useW then tw b idx else 1) * target b (3 * idx) s * target b (3 * idx + 2) s)
                ^ 2) / ((B : ℚ) * S))))
          / ((C / 3 : ℕ) : ℚ)) := by
  rw [CombinedTargetMSELoss.forward, mul_comm]
  congr 1
  congr 1
  apply Finset.sum_congr rfl
  intro idx _
  have h1 : (∑ b ∈ Finset.range B, ∑ s ∈ Finset.range S,
      (output b (3 * idx) s * (if useW then tw b idx else 1)
        - target b (3 * idx) s * (if useW then tw b idx else 1)) ^ 2)
      = (∑ b ∈ Finset.range B, ∑ s ∈ Finset.range S,
      ((if useW then tw b idx else 1) * output b (3 * idx) s
        - (if useW then tw b idx else 1) * target b (3 * idx) s) ^ 2) := by
    apply Finset.sum_congr rfl
    intro b _
    apply Finset.sum_congr rfl
    intro s _
    ring
  have h2 : ∀ j, (∑ b ∈ Finset.range B, ∑ s ∈ Finset.range S,
      (target b (3 * idx) s * (if useW then tw b idx else 1) * output b (3 * idx + j) s
        - target b (3 * idx) s * (if useW then tw b idx else 1) * target b (3 * idx + j) s) ^ 2)
      = (∑ b ∈ Finset.range B, ∑ s ∈ Finset.range S,
      ((if useW then tw b idx else 1) * target b (3 * idx) s * output b (3 * idx + j) s
        - (if useW then tw b idx else 1) * target b (3 * idx) s * target b (3 * idx + j) s)
        ^ 2) := by
    intro j
    apply Finset.sum_congr rfl
    intro b _
    apply Finset.sum_congr rfl
    intro s _
    ring
  rw [mseMean2, mseMean2, mseMean2, h1, h2 1, h2 2]
  norm_num

/-- C7: if every ground-truth classification channel value is zero then the
offset/regression terms of `CombinedTargetMSELoss` contribute exactly zero, so
the total loss equals the classification term alone. -/
theorem C7_combined_target_masked_offsets (B C S : ℕ) (useW : Bool) (lw : ℚ)
    (output target : ℕ → ℕ → ℕ → ℚ) (tw : ℕ → ℕ → ℚ)
    (hgt : ∀ idx, idx < C / 3 → ∀ b, b < B → ∀ s, s < S → target b (3 * idx) s = 0) :
    CombinedTargetMSELoss.forward B C S useW lw output target tw
      = (∑ idx ∈ Finset.range (C / 3),
          0.5 * mseMean2 B S
            (fun b s => output b (3 * idx) s * (if useW then tw b idx else 1))
            (fun b s => target b (3 * idx) s * (if useW then tw b idx else 1)))
        / ((C / 3 : ℕ) : ℚ) * lw := by
  rw [CombinedTargetMSELoss.forward]
  congr 2
  apply Finset.sum_congr rfl
  intro idx hidx
  have hreg : ∀ j, mseMean2 B S
      (fun b s => target b (3 * idx) s * (if useW then tw b idx else 1)
        * output b (3 * idx + j) s)
      (fun b s => target b (3 * idx) s * (if useW then tw b idx else 1)
        * target b (3 * idx + j) s) = 0 := by
    intro j
    rw [mseMean2]
    have : (∑ b ∈ Finset.range B, ∑ s ∈ Finset.range S,
        (target b (3 * idx) s * (if useW then tw b idx else 1) * output b (3 * idx + j) s
          - target b (3 * idx) s * (if useW then tw b idx else 1) * target b (3 * idx + j) s)
          ^ 2) = 0 := by
      apply Finset.sum_eq_zero
      intro b hb
      apply Finset.sum_eq_zero
      intro s hs
      rw [hgt idx (Finset.mem_range.mp hidx) b (Finset.mem_range.mp hb) s
        (Finset.mem_range.mp hs)]
      ring
    rw [this, zero_div]
  rw [hreg 1, hreg 2]
  ring

/-- Witness for C7 at a concrete input (`C = 3`, all-zero ground truth). -/
theorem C7_combined_target_masked_offsets_witness :
    CombinedTargetMSELoss.forward 1 3 1 false 1 (fun _ _ _ => 1) (fun _ _ _ => 0)
      (fun _ _ => 1)
      = (∑ idx ∈ Finset.range (3 / 3),
          0.5 * mseMean2 1 1
            (fun b s => (fun _ _ _ => (1 : ℚ)) b (3 * idx) s
              * (if false then (fun _ _ => (1 : ℚ)) b idx else 1))
            (fun b s => (fun _ _ _ => (0 : ℚ)) b (3 * idx) s
              * (if false then (fun _ _ => (1 : ℚ)) b idx else 1)))
        / ((3 / 3 : ℕ) : ℚ) * 1 :=
  C7_combined_target_masked_offsets 1 3 1 false 1 (fun _ _ _ => 1) (fun _ _ _ => 0)
    (fun _ _ => 1) (fun _ _ _ _ _ _ => rfl)

instance : DecidableRel (fun a b : ℚ => b ≤ a) :=
  fun a b => inferInstanceAs (Decidable (b ≤ a))

/-- `torch.topk(v, k)` followed by `torch.gather`: the `k` largest values of
the list (here realized by a stable descending sort followed by `take k`;
`torch.topk` guarantees exactly `k` values with an implementation-defined
tie-break). -/
def topkVals (k : ℕ) (l : List ℚ) : List ℚ :=
  (l.insertionSort (fun a b => b ≤ a)).take k

/-- The `[B, K]` per-keypoint loss matrix built by
`KeypointOHKMMSELoss.forward` (mse_loss.py lines 208-219): for each keypoint
channel, the elementwise squared error of the (optionally weighted) heatmaps,
mean-reduced over the spatial dimensions. -/
def KeypointOHKMMSELoss.keypointLosses (H W : ℕ) (use_target_weight : Bool)
    (output target : ℕ → ℕ → ℕ → ℕ → ℚ) (target_weights : ℕ → ℕ → ℚ) : ℕ → ℕ → ℚ :=
  fun b k =>
    (∑ h ∈ Finset.range H, ∑ x ∈ Finset.range W,
      (output b k h x * (if use_target_weight then target_weights b k else 1)
        - target b k h x * (if use_target_weight then target_weights b k else 1)) ^ 2)
      / ((H : ℚ) * W)

/-- `KeypointOHKMMSELoss._ohkm` (mse_loss.py lines 160-182): for each sample
of the `[B, K]` loss matrix, gather the `topk` largest per-keypoint losses,
sum them and divide by `topk`; average the per-sample results over the
batch. -/
def KeypointOHKMMSELoss.ohkm (B K topk : ℕ) (losses : ℕ → ℕ → ℚ) : ℚ :=
  (∑ i ∈ Finset.range B,
    (topkVals topk ((List.range K).map (losses i))).sum / (topk : ℚ)) / (B : ℚ)

/-- `KeypointOHKMMSELoss.forward` (mse_loss.py lines 184-221): raises a
`ValueError` when the number of keypoints is smaller than the configured
`topk` (before any loss computation), otherwise applies `_ohkm` to the
per-keypoint loss matrix and multiplies by `loss_weight`. -/
def KeypointOHKMMSELoss.forward (B K H W topk : ℕ) (use_target_weight : Bool)
    (loss_weight : ℚ) (output target : ℕ → ℕ → ℕ → ℕ → ℚ)
    (target_weights : ℕ → ℕ → ℚ) : Except String ℚ :=
  if K < topk then
    Except.error "topk should not be larger than num_keypoints"
  else
    Except.ok (KeypointOHKMMSELoss.ohkm B K topk
      (KeypointOHKMMSELoss.keypointLosses H W use_target_weight output target target_weights)
      * loss_weight)

/-- Spec-side restatement (for comparison, not taken from the source): the
per-keypoint spatially mean-reduced weighted squared error, written as the
spec phrases it (squared error of the weighted residual).  Used to compare
`KeypointOHKMMSELoss.forward` against the spec's description of the `[B, K]`
loss matrix. -/
def specPerKeypointLoss (H W : ℕ) (useW : Bool) (output target : ℕ → ℕ → ℕ → ℕ → ℚ)
    (tw : ℕ → ℕ → ℚ) (b k : ℕ) : ℚ :=
  (∑ h ∈ Finset.range H, ∑ x ∈ Finset.range W,
    ((if useW then tw b k else 1) * (output b k h x - target b k h x)) ^ 2)
    / ((H : ℚ) * W)

/-- The spec's concrete example: per-keypoint losses `[9, 1, 8, 2, 7, 3, 6, 4,
5, 0]` for a single sample with `K = 10`. -/
def exampleKeypointLosses : ℕ → ℚ :=
  fun k => [(9 : ℚ), 1, 8, 2, 7, 3, 6, 4, 5, 0].getD k 0

lemma keypointLosses_eq_spec (H W : ℕ) (useW : Bool)
    (output target : ℕ → ℕ → ℕ → ℕ → ℚ) (tw : ℕ → ℕ → ℚ) :
    KeypointOHKMMSELoss.keypointLosses H W useW output target tw
      = specPerKeypointLoss H W useW output target tw := by
  funext b k
  rw [KeypointOHKMMSELoss.keypointLosses, specPerKeypointLoss]
  congr 1
  apply Finset.sum_congr rfl
  intro h _
  apply Finset.sum_congr rfl
  intro x _
  ring

lemma topkVals_length (k : ℕ) (l : List ℚ) (h : k ≤ l.length) :
    (topkVals k l).length = k := by
  rw [topkVals, List.length_take, (List.perm_insertionSort _ l).length_eq]
  exact Nat.min_eq_left h

lemma topkVals_subperm (k : ℕ) (l : List ℚ) : List.Subperm (topkVals k l) l :=
  List.Subperm.trans (List.Sublist.subperm (List.take_sublist _ _))
    ((List.perm_insertionSort _ l).subperm)

lemma topkVals_max (k : ℕ) (l : List ℚ) :
    ∀ x ∈ topkVals k l, ∀ y ∈ (l.insertionSort (fun a b => b ≤ a)).drop k, y ≤ x := by
  haveI : IsTotal ℚ (fun a b => b ≤ a) := ⟨fun a b => le_total b a⟩
  haveI : IsTrans ℚ (fun a b => b ≤ a) := ⟨fun _ _ _ h1 h2 => le_trans h2 h1⟩
  have hs : List.Pairwise (fun a b : ℚ => b ≤ a)
      ((l.insertionSort (fun a b => b ≤ a)).take k
        ++ (l.insertionSort (fun a b => b ≤ a)).drop k) := by
    rw [List.take_append_drop]
    exact List.sorted_insertionSort _ l
  exact (List.pairwise_append.mp hs).2.2

/-- C2: whenever the keypoint dimension `K` is smaller than the configured
`topk`, `KeypointOHKMMSELoss.forward` fails (the source's `ValueError`, the
spec's `ConfigError`) before any loss computation; the configuration is never
silently clamped. -/
theorem C2_ohkm_topk_exceeds_keypoints (B K H W topk : ℕ) (useW : Bool) (lw : ℚ)
    (output target : ℕ → ℕ → ℕ → ℕ → ℚ) (tw : ℕ → ℕ → ℚ)
    (h : K < topk) :
    KeypointOHKMMSELoss.forward B K H W topk useW lw output target tw
      = Except.error "topk should not be larger than num_keypoints" := by
  rw [KeypointOHKMMSELoss.forward, if_pos h]

/-- Witness for C2 at a concrete input (`K = 1 < topk = 2`). -/
theorem C2_ohkm_topk_exceeds_keypoints_witness :
    KeypointOHKMMSELoss.forward 1 1 1 1 2 false 1 (fun _ _ _ _ => 0)
      (fun _ _ _ _ => 0) (fun _ _ => 0)
      = Except.error "topk should not be larger than num_keypoints" :=
  C2_ohkm_topk_exceeds_keypoints 1 1 1 1 2 false 1 (fun _ _ _ _ => 0)
    (fun _ _ _ _ => 0) (fun _ _ => 0) (by norm_num)

/-- C1: `KeypointOHKMMSELoss.forward` computes the `[B, K]` per-keypoint
spatially mean-reduced (optionally weighted) squared-error matrix, selects for
each sample a multiset of exactly `topk` per-keypoint losses each at least as
large as every unselected one, sums it and divides by `topk`, averages over
the batch and multiplies by the loss weight; and on the spec's example matrix
`[9, 1, 8, 2, 7, 3, 6, 4, 5, 0]` with `topk = 3` the `_ohkm` result is exactly
`(9 + 8 + 7) / 3 = 8`. -/
theorem C1_ohkm_forward_selects_topk (B K H W topk : ℕ) (useW : Bool) (lw : ℚ)
    (output target : ℕ → ℕ → ℕ → ℕ → ℚ) (tw : ℕ → ℕ → ℚ) (hK : topk ≤ K) :
    (∃ sel : ℕ → Multiset ℚ,
      (∀ b : ℕ,
        (sel b).card = topk ∧
        sel b ≤ (↑((List.range K).map
          (specPerKeypointLoss H W useW output target tw b)) : Multiset ℚ) ∧
        ∀ x ∈ sel b,
          ∀ y ∈ (↑((List.range K).map
              (specPerKeypointLoss H W useW output target tw b)) : Multiset ℚ) - sel b,
            y ≤ x) ∧
      KeypointOHKMMSELoss.forward B K H W topk useW lw output target tw
        = Except.ok (lw * ((∑ b ∈ Finset.range B, (sel b).sum / (topk : ℚ)) / (B : ℚ)))) ∧
    KeypointOHKMMSELoss.ohkm 1 10 3 (fun _ k => exampleKeypointLosses k) = 8 := by
  constructor
  · refine ⟨fun b => (↑(topkVals topk ((List.range K).map
      (specPerKeypointLoss H W useW output target tw b))) : Multiset ℚ), fun b => ?_, ?_⟩
    · set l := (List.range K).map (specPerKeypointLoss H W useW output target tw b) with hl
      have hlen : topk ≤ l.length := by
        rw [hl, List.length_map, List.length_range]
        exact hK
      refine ⟨?_, ?_, ?_⟩
      · rw [Multiset.coe_card, topkVals_length topk l hlen]
      · exact Multiset.coe_le.mpr (topkVals_subperm topk l)
      · intro x hx y hy
        have hsplit : (↑(l.insertionSort (fun a b => b ≤ a)) : Multiset ℚ)
            = (↑(topkVals topk l) : Multiset ℚ)
              + (↑((l.insertionSort (fun a b => b ≤ a)).drop topk) : Multiset ℚ) := by
          rw [topkVals, Multiset.coe_add, List.take_append_drop]
        have hperm : (↑l : Multiset ℚ)
            = (↑(l.insertionSort (fun a b => b ≤ a)) : Multiset ℚ) :=
          Multiset.coe_eq_coe.mpr (List.perm_insertionSort _ l).symm
        rw [hperm, hsplit, add_tsub_cancel_left] at hy
        exact topkVals_max topk l x hx y (Multiset.mem_coe.mp hy)
    · rw [KeypointOHKMMSELoss.forward, if_neg (Nat.not_lt.mpr hK), keypointLosses_eq_spec,
        KeypointOHKMMSELoss.ohkm]
      congr 1
      rw [mul_comm]
      simp only [Multiset.sum_coe]
  · have h1 : List.map (fun k => exampleKeypointLosses k) (List.range 10)
        = [9, 1, 8, 2, 7, 3, 6, 4, 5, 0] := rfl
    have h2 : topkVals 3 [(9 : ℚ), 1, 8, 2, 7, 3, 6, 4, 5, 0] = [9, 8, 7] := by decide
    rw [KeypointOHKMMSELoss.ohkm]
    simp only [Finset.sum_range_one]
    rw [h1, h2]
    norm_num

/-- Witness for C1 at a concrete input (`B = K = H = W = topk = 1`). -/
theorem C1_ohkm_forward_selects_topk_witness :
    (1 : ℕ) ≤ 1 ∧
    ((∃ sel : ℕ → Multiset ℚ,
      (∀ b : ℕ,
        (sel b).card = 1 ∧
        sel b ≤ (↑((List.range 1).map (specPerKeypointLoss 1 1 false (fun _ _ _ _ => 0)
          (fun _ _ _ _ => 0) (fun _ _ => 0) b)) : Multiset ℚ) ∧
        ∀ x ∈ sel b,
          ∀ y ∈ (↑((List.range 1).map (specPerKeypointLoss 1 1 false (fun _ _ _ _ => 0)
              (fun _ _ _ _ => 0) (fun _ _ => 0) b)) : Multiset ℚ) - sel b,
            y ≤ x) ∧
      KeypointOHKMMSELoss.forward 1 1 1 1 1 false 1 (fun _ _ _ _ => 0) (fun _ _ _ _ => 0)
          (fun _ _ => 0)
        = Except.ok (1 * ((∑ b ∈ Finset.range 1, (sel b).sum / ((1 : ℕ) : ℚ))
            / ((1 : ℕ) : ℚ)))) ∧
    KeypointOHKMMSELoss.ohkm 1 10 3 (fun _ k => exampleKeypointLosses k) = 8) :=
  ⟨le_refl 1, C1_ohkm_forward_selects_topk 1 1 1 1 1 false 1 (fun _ _ _ _ => 0)
    (fun _ _ _ _ => 0) (fun _ _ => 0) (le_refl 1)⟩

/-- C9: for each of the three MSE-based loss modules the returned loss is the
`loss_weight`-independent value multiplied by the configured loss weight: the
forward pass with weight `lw` equals the forward pass with weight `1` scaled
by `lw` (on the error-free path unchanged errors otherwise).  Instantiating
`lw := 2` gives exactly twice the `loss_weight = 1` result. -/
theorem C9_loss_weight_scaling (B K H W C S topk : ℕ) (useW : Bool) (lw : ℚ)
    (out4 tgt4 : ℕ → ℕ → ℕ → ℕ → ℚ) (wts : Option (ℕ → ℕ → ℚ))
    (out3 tgt3 : ℕ → ℕ → ℕ → ℚ) (tw3 tw4 : ℕ → ℕ → ℚ) :
    KeypointMSELoss.forward B K H W useW lw out4 tgt4 wts
      = (KeypointMSELoss.forward B K H W useW 1 out4 tgt4 wts).map (fun r => lw * r) ∧
    CombinedTargetMSELoss.forward B C S useW lw out3 tgt3 tw3
      = lw * CombinedTargetMSELoss.forward B C S useW 1 out3 tgt3 tw3 ∧
    KeypointOHKMMSELoss.forward B K H W topk useW lw out4 tgt4 tw4
      = (KeypointOHKMMSELoss.forward B K H W topk useW 1 out4 tgt4 tw4).map
          (fun r => lw * r) := by
  refine ⟨?_, ?_, ?_⟩
  · cases useW <;> cases wts <;>
      simp [KeypointMSELoss.forward, Except.map, mul_one, mul_comm]
  · simp [CombinedTargetMSELoss.forward, mul_one, mul_comm]
  · by_cases h : K < topk
    · simp [KeypointOHKMMSELoss.forward, h, Except.map]
    · simp [KeypointOHKMMSELoss.forward, h, Except.map, mul_one, mul_comm]

